import Mathlib

/-!
Verification of the AlgoGraphi-Ka step-trace visualizers.

This file gives a shallow embedding of the step-trace data model and the
step-driven rendering logic of the repository (the React/D3 visualizer
components under src/components, the narration utilities under src/utils,
and the bundled trace src/data/bfsData.ts), and proves or refutes the
stated properties of the diff engine, the visual encoders, the playback
controller, the layout behaviour and the narration contract.

JavaScript objects are embedded as insertion-ordered association lists
with unique keys; `undefined` and `null` become `Option`; JS numbers that
only ever hold integers become `Int`/`Nat`.  React `useEffect` semantics
are embedded explicitly: an effect re-runs after a render exactly when
one of the values in its dependency array changed.
-/

set_option autoImplicit false

namespace AlgoGraphiKa

/-! ### JS object model -/

/-- A JS object with values of type `α`: an insertion-ordered association
list.  Keys are unique in every object built by `objSet`. -/
abbrev Obj (α : Type) := List (String × α)

/-- Property read `m[k]`: `none` models `undefined`. -/
def objGet {α : Type} (m : Obj α) (k : String) : Option α :=
  (m.find? (fun p => p.1 == k)).map (fun p => p.2)

/-- Property write `m[k] = v`: overwrites in place when the key exists
(keeping its position, as JS does), otherwise appends the new key. -/
def objSet {α : Type} (m : Obj α) (k : String) (v : α) : Obj α :=
  if m.any (fun p => p.1 == k) then
    m.map (fun p => if p.1 == k then (k, v) else p)
  else
    m ++ [(k, v)]

/-! ### Floyd-Warshall diff engine (src/components/FloydWarshall.tsx)

`parseDistances` and `detectUpdatedCell` are translated from
FloydWarshall.tsx lines 185-237, and the `changed` cell selection of
`renderMatrix` from lines 240-300.  We embed the nested distance shape
`{A: {B: val}}` (the `nested` branch of the source; the association-list
representation is exactly that shape, so the source's `nested` test is
`true` for every value of this type). -/

/-- A distances object in the nested shape: row key to (column key to value). -/
abbrev DistObj := Obj (Obj Int)

/-- The fill value used by `parseDistances` for missing off-diagonal cells
(`const INF = 999999` in the source). -/
def fwINF : Int := 999999

/-- Read `m[i][j]` on a nested object. -/
def objGet2 (m : DistObj) (i j : String) : Option Int :=
  match objGet m i with
  | some row => objGet row j
  | none => none

/-- Write `matrix[i][j] = v`.  In the source the row object `matrix[i]`
always exists at this point (it was created by `ids.forEach`); the
`getD []` default corresponds to the case the source would throw on. -/
def fwSetCell (m : DistObj) (i j : String) (v : Int) : DistObj :=
  objSet m i (objSet ((objGet m i).getD []) j v)

/-- `ids.forEach((i) => (matrix[i] = {}))`. -/
def fwEmptyRows (ids : List String) : DistObj :=
  ids.foldl (fun m i => objSet m i []) []

/-- The nested copy loop: `for i of keys(distObj): for j of keys(distObj[i]):
matrix[i][j] = distObj[i][j]`. -/
def fwCopyNested (m : DistObj) (dist : DistObj) : DistObj :=
  dist.foldl (fun acc r => r.2.foldl (fun acc2 jv => fwSetCell acc2 r.1 jv.1 jv.2) acc) m

/-- The fill loop: every pair of ids gets a value, missing cells becoming
`0` on the diagonal and `999999` off it. -/
def fwFill (ids : List String) (m : DistObj) : DistObj :=
  ids.foldl (fun acc i =>
    ids.foldl (fun acc2 j =>
      if (objGet2 acc2 i j).isSome then acc2
      else fwSetCell acc2 i j (if i == j then 0 else fwINF)) acc) m

/-- `parseDistances` of FloydWarshall.tsx lines 185-224 (nested branch). -/
def parseDistances (ids : List String) (dist : DistObj) : DistObj :=
  fwFill ids (fwCopyNested (fwEmptyRows ids) dist)

/-- The cell enumeration order of `detectUpdatedCell`'s nested loops:
`for i of Object.keys(p): for j of Object.keys(p[i])`. -/
def cellList (m : DistObj) : List (String × String) :=
  m.flatMap (fun r => r.2.map (fun jv => (r.1, jv.1)))

/-- `detectUpdatedCell` of FloydWarshall.tsx lines 227-237: `null` for the
first step, otherwise the first cell (in iteration order) whose parsed
values differ, `null` when none differs. -/
def detectUpdatedCell (ids : List String) (prev : Option DistObj) (curr : DistObj) :
    Option (String × String) :=
  match prev with
  | none => none
  | some prevDist =>
    let p := parseDistances ids prevDist
    let c := parseDistances ids curr
    (cellList p).find? (fun ij => objGet2 p ij.1 ij.2 != objGet2 c ij.1 ij.2)

/-- One Floyd-Warshall step as consumed by `renderMatrix` (the fields of
`Step.state` that the diff uses). -/
structure FWStep where
  distances : DistObj
  updated_cell : Option (String × String)
deriving DecidableEq

/-- The `changed` cell of `renderMatrix` (lines 244-249):
`explicit ?? inferred`. -/
def fwChangedCell (ids : List String) (steps : List FWStep) (stepIdx : Nat) :
    Option (String × String) :=
  match steps.get? stepIdx with
  | none => none
  | some step =>
    let explicit := step.updated_cell
    let inferred := detectUpdatedCell ids
      (if stepIdx > 0 then (steps.get? (stepIdx - 1)).map (fun s => s.distances) else none)
      step.distances
    explicit.orElse (fun _ => inferred)

/-- `isChanged` for one matrix cell of `renderMatrix` (line 272): the cell
is highlighted exactly when it equals the single `changed` cell. -/
def fwHighlighted (ids : List String) (steps : List FWStep) (stepIdx : Nat)
    (i j : String) : Bool :=
  match fwChangedCell ids steps stepIdx with
  | some c => c.1 == i && c.2 == j
  | none => false

/-- Concrete two-node instance for the diff claims. -/
def fwIds : List String := ["A", "B"]

/-- A cumulative distance matrix (step i-1 of a two-node trace). -/
def fwPrevD : DistObj := [("A", [("A", 0), ("B", 5)]), ("B", [("A", 7), ("B", 0)])]

/-- The successor matrix: both off-diagonal cells improved simultaneously. -/
def fwCurrD : DistObj := [("A", [("A", 0), ("B", 3)]), ("B", [("A", 4), ("B", 0)])]

/-- A two-step cumulative trace in which step 1 changes two cells at once. -/
def fwTrace : List FWStep := [⟨fwPrevD, none⟩, ⟨fwCurrD, none⟩]

/-! ### Bellman-Ford step-update logic (src/components/BellmanFord.tsx)

The component keeps three persistent refs across renders
(`settledNodesRef`, `settledEdgesRef`, `prevStepIndexRef`, lines 56-60)
and a step-update effect (lines 180-265) that only ever adds to the
settled sets.  We embed the refs as an explicit state record and the
effect body as a transition on it. -/

/-- The `state` field of a Bellman-Ford `Step` as used by the effect:
`predecessor` maps a node id to `string | null`, `relaxed_edge` is a node
pair or `null`. -/
structure BFStepState where
  predecessor : Obj (Option String)
  relaxed_edge : Option (String × String)
deriving DecidableEq

/-- One Bellman-Ford trace step. -/
structure BFStep where
  state : BFStepState
deriving DecidableEq

/-- JS truthiness of `predecessor?.[nid]`: `undefined`, `null` and the
empty string are falsy, any other string is truthy. -/
def jsTruthy : Option (Option String) → Bool
  | some (some s) => s != ""
  | _ => false

/-- The persistent refs of the component (lines 56-60), with their
initial values `new Set()`, `new Set()`, `0`. -/
structure BFRefs where
  settledNodes : List String
  settledEdges : List String
  prevStepIndex : Nat
deriving DecidableEq

/-- Initial ref state at mount. -/
def bfInitialRefs : BFRefs := ⟨[], [], 0⟩

/-- Fallback step for the (unreachable, since `stepIndex` is clamped)
out-of-range lookup `steps[stepIndex]`. -/
def bfDefaultStep : BFStep := ⟨⟨[], none⟩⟩

/-- `newlySettledNodes` (lines 188-195): the keys of the current step's
predecessor object whose value is truthy now but was falsy at the
previously *rendered* step. -/
def bfNewlySettled (curr prev : BFStepState) : List String :=
  (curr.predecessor.map (fun p => p.1)).filter (fun nid =>
    !(jsTruthy (objGet prev.predecessor nid)) && jsTruthy (objGet curr.predecessor nid))

/-- `newlySettledEdges` (lines 198-202): the edge `u->v` for each newly
settled node `v` with truthy predecessor `u`. -/
def bfNewEdges (curr : BFStepState) (newNodes : List String) : List String :=
  newNodes.filterMap (fun v =>
    match objGet curr.predecessor v with
    | some (some u) => if u == "" then none else some (u ++ "->" ++ v)
    | _ => none)

/-- The step-update effect body (lines 180-265) as a transition on the
refs: it appends the newly settled nodes and edges to the persistent sets
and records the rendered index in `prevStepIndexRef`. -/
def bfRunEffect (steps : List BFStep) (r : BFRefs) (stepIndex : Nat) : BFRefs :=
  let curr := (steps.get? stepIndex).getD bfDefaultStep
  let prev := (steps.get? r.prevStepIndex).getD bfDefaultStep
  let newNodes := bfNewlySettled curr.state prev.state
  let newEdges := bfNewEdges curr.state newNodes
  { settledNodes := r.settledNodes ++ newNodes
    settledEdges := r.settledEdges ++ newEdges
    prevStepIndex := stepIndex }

/-- Running the component from mount (the effect first runs at index 0)
through a sequence of seeked step indices. -/
def bfRunSeq (steps : List BFStep) (idxs : List Nat) : BFRefs :=
  idxs.foldl (bfRunEffect steps) (bfRunEffect steps bfInitialRefs 0)

/-- The node fill encoder of the effect (lines 213-219): settled nodes
and the start node get the visited colour. -/
def bfNodeFill (startNode : String) (r : BFRefs) (id : String) : String :=
  if r.settledNodes.contains id || id == startNode then "var(--bellman-visited-color)"
  else "var(--bellman-node-color)"

/-- A three-step Bellman-Ford trace: step 1 settles `B`, step 2 settles
`C` (predecessors only ever gain entries). -/
def bfTrace : List BFStep :=
  [⟨⟨[("A", none), ("B", none), ("C", none)], none⟩⟩,
   ⟨⟨[("A", none), ("B", some "A"), ("C", none)], none⟩⟩,
   ⟨⟨[("A", none), ("B", some "A"), ("C", some "B")], none⟩⟩]

/-! ### Playback controller (Prev/Next/detail/theme handlers)

Every visualizer repeats the same button handlers, e.g.
BFSGraphVisualizer.tsx lines 221-237: `setStepIndex(Math.max(prev-1, 0))`,
`setStepIndex(Math.min(prev+1, steps.length-1))`,
`setExplanationLevel(prev === 0 ? 1 : 0)`, and the theme toggle at lines
207-215.  `stepIndex` is embedded as `Int` so that the clamping arithmetic
is the source's. -/

/-- The Next handler: `Math.min(prev + 1, steps.length - 1)`. -/
def nextStepIndex (numSteps : Int) (i : Int) : Int := min (i + 1) (numSteps - 1)

/-- The Prev handler: `Math.max(prev - 1, 0)`. -/
def prevStepIndex (i : Int) : Int := max (i - 1) 0

/-- Controller state of one visualizer component. -/
structure CtrlState where
  stepIndex : Int
  explanationLevel : Nat
  theme : Bool
deriving DecidableEq

/-- `setExplanationLevel((prev) => (prev === 0 ? 1 : 0))`. -/
def toggleDetail (s : CtrlState) : CtrlState :=
  { s with explanationLevel := if s.explanationLevel == 0 then 1 else 0 }

/-- `setTheme((prev) => (prev === "light" ? "dark" : "light"))`. -/
def toggleTheme (s : CtrlState) : CtrlState :=
  { s with theme := !s.theme }

/-- The Next button applied to the controller state. -/
def ctrlNext (numSteps : Int) (s : CtrlState) : CtrlState :=
  { s with stepIndex := nextStepIndex numSteps s.stepIndex }

/-- The Prev button applied to the controller state. -/
def ctrlPrev (s : CtrlState) : CtrlState :=
  { s with stepIndex := prevStepIndex s.stepIndex }

/-! ### Narration effect (src/components/BFSGraphVisualizer.tsx lines 52-198)

The D3 effect ends in `speak(steps[stepIndex].actions[explanationLevel])`
(line 197) and has dependency array `[stepIndex, explanationLevel, theme]`
(line 198).  React re-runs an effect after a render exactly when one of
its dependencies changed, so a transition issues one narration call
exactly when one of those three values changed. -/

/-- A step restricted to what narration needs. -/
structure NarrStep where
  actions : List String
deriving DecidableEq

/-- JS array indexing with a possibly negative index. -/
def jsIndex {α : Type} (l : List α) (i : Int) : Option α :=
  if i < 0 then none else l.get? i.toNat

/-- The narration argument `steps[stepIndex].actions[explanationLevel]`
for a controller state (`none` models `undefined`). -/
def narrText (steps : List NarrStep) (s : CtrlState) : Option String :=
  (jsIndex steps s.stepIndex).bind (fun st => st.actions.get? s.explanationLevel)

/-- The narration calls issued by one transition from `old` to `new`:
one `speak` when some dependency of the effect changed, none otherwise. -/
def narrationCalls (steps : List NarrStep) (old new : CtrlState) : List (Option String) :=
  if old.stepIndex == new.stepIndex && old.explanationLevel == new.explanationLevel &&
      old.theme == new.theme then []
  else [narrText steps new]

/-- A two-step trace (beginner and advanced texts per step) for concrete
narration statements. -/
def narrDemoSteps : List NarrStep := [⟨["b0", "a0"]⟩, ⟨["b1", "a1"]⟩]

/-! ### Narration collaborator (src/utils/audioUtils.ts)

`speak` (lines 3-33) synchronously calls `window.speechSynthesis.cancel()`
and registers a 100ms timeout; the timeout callback starts a new utterance
only when the module flag `isSpeaking` is false, setting it; the
utterance's `onend`/`onerror` callback clears the flag.  We embed this as
a labelled transition system over the single-threaded event loop: the
synchronous body of `speak`, a pending timeout firing, an active utterance
ending, and the delivery of the end callback of a cancelled utterance are
the atomic events, and events fire in any order (a superset of the real
timing behaviours, so safety proved here covers them all). -/

/-- The module state of audioUtils.ts plus the platform speech state:
`isSpeaking` is the module flag; `pending` counts registered timeouts not
yet fired; `active` counts utterances passed to `speechSynthesis.speak`
and neither finished nor cancelled; `cancelled` counts cancelled
utterances whose `onend`/`onerror` callback has not been delivered yet. -/
structure SpeechState where
  isSpeaking : Bool
  pending : Nat
  active : Nat
  cancelled : Nat
deriving DecidableEq

/-- The events of the narration event loop. -/
inductive SpeechEvent where
  | callSpeak
  | timeoutFire
  | endActive
  | endCancelled
deriving DecidableEq

/-- One atomic event.  `none` means the event is not enabled in this
state.  `callSpeak` is the synchronous body of `speak` (cancel everything
still playing, register a timeout); `timeoutFire` is the timeout callback
(start an utterance only when the flag is clear); `endActive` is the
`onend` of a playing utterance; `endCancelled` is the late `onend`/
`onerror` of a cancelled one — both clear the flag. -/
def speechStep (s : SpeechState) : SpeechEvent → Option SpeechState
  | SpeechEvent.callSpeak =>
    some { isSpeaking := s.isSpeaking, pending := s.pending + 1,
           active := 0, cancelled := s.cancelled + s.active }
  | SpeechEvent.timeoutFire =>
    if s.pending = 0 then none
    else if s.isSpeaking then some { s with pending := s.pending - 1 }
    else some { isSpeaking := true, pending := s.pending - 1,
                active := s.active + 1, cancelled := s.cancelled }
  | SpeechEvent.endActive =>
    if s.active = 0 then none
    else some { s with active := s.active - 1, isSpeaking := false }
  | SpeechEvent.endCancelled =>
    if s.cancelled = 0 then none
    else some { s with cancelled := s.cancelled - 1, isSpeaking := false }

/-- The module's initial state (`let isSpeaking = false`, nothing queued). -/
def speechInit : SpeechState := ⟨false, 0, 0, 0⟩

/-- States reachable from the initial state by any interleaving of speak
calls and callback deliveries. -/
inductive SpeechReachable : SpeechState → Prop where
  | init : SpeechReachable speechInit
  | step {s s' : SpeechState} {e : SpeechEvent} :
      SpeechReachable s → speechStep s e = some s' → SpeechReachable s'

/-! ### Trace loading (src/components/BFSGraphVisualizer.tsx lines 39-44)

The component projects the raw data directly:
`steps = bfsData.meta.steps`, `nodes = bfsData.input.nodes.map(...)`,
`edges = bfsData.input.edges.map(...)` — there is no validation step. -/

/-- One raw step of the graph-search trace shape. -/
structure RawStep where
  step_number : Int
  actions : List String
  queue : List String
  visited : List String
  predecessor : Obj (Option String)
  next_suggestion : Option String
deriving DecidableEq

/-- The raw `input` object. -/
structure RawInput where
  nodes : List String
  edges : List (String × String)
  start_node : String
deriving DecidableEq

/-- The raw `meta` object. -/
structure RawMeta where
  steps : List RawStep
deriving DecidableEq

/-- A raw trace file as imported by the component. -/
structure RawData where
  meta : RawMeta
  input : RawInput
deriving DecidableEq

/-- A node object built by `nodes.map((id) => ({ id }))`. -/
structure GNode where
  id : String
deriving DecidableEq

/-- An edge object built by `edges.map(([s, t]) => ({source: s, target: t}))`. -/
structure GEdge where
  source : String
  target : String
deriving DecidableEq

/-- What the component holds after loading. -/
structure LoadedTrace where
  steps : List RawStep
  nodes : List GNode
  edges : List GEdge
deriving DecidableEq

/-- The load in BFSGraphVisualizer.tsx lines 39-44: a direct projection,
total, with no validation and no failure path. -/
def loadTrace (raw : RawData) : LoadedTrace :=
  { steps := raw.meta.steps
    nodes := raw.input.nodes.map (fun id => ⟨id⟩)
    edges := raw.input.edges.map (fun st => ⟨st.1, st.2⟩) }

/-- The schema errors named by the spec. -/
inductive SchemaError where
  | emptySteps
  | badStepNumbers
  | badActionsLength
  | unknownEntity
deriving DecidableEq

/-- The number of detail levels supported by the controller (beginner and
advanced, hardcoded to two throughout the source). -/
def detailLevelCount : Nat := 2

/-- Strict increase from 1 of the step numbers. -/
def stepNumbersOk (l : List Int) : Bool :=
  (match l.head? with | some x => x == 1 | none => true) &&
  (l.zip l.tail).all (fun p => p.1 < p.2)

/-- Entity references of one raw step: queue and visited entries,
predecessor keys and values, and the next suggestion. -/
def stepRefs (s : RawStep) : List String :=
  s.queue ++ s.visited ++ s.predecessor.map (fun p => p.1) ++
  s.predecessor.filterMap (fun p => p.2) ++ s.next_suggestion.toList

/-- Modelled from the spec: the Trace Schema validation boundary of §4.1,
which is absent from the code.  It fails with `SchemaError` when `steps`
is empty, when step numbers are not strictly increasing from 1, when an
`actions` list length mismatches the detail-level count, or when a state
reference names an entity not present in `input`; otherwise it returns
the loaded trace. -/
def specSchemaCheck (raw : RawData) : Except SchemaError LoadedTrace :=
  if raw.meta.steps.isEmpty then Except.error SchemaError.emptySteps
  else if !(stepNumbersOk (raw.meta.steps.map (fun s => s.step_number))) then
    Except.error SchemaError.badStepNumbers
  else if !(raw.meta.steps.all (fun s => s.actions.length == detailLevelCount)) then
    Except.error SchemaError.badActionsLength
  else if !(raw.meta.steps.all (fun s =>
      (stepRefs s).all (fun id => raw.input.nodes.contains id))) then
    Except.error SchemaError.unknownEntity
  else Except.ok (loadTrace raw)

/-- A raw trace with an empty `steps` array. -/
def rawEmptySteps : RawData := ⟨⟨[]⟩, ⟨["A"], [], "A"⟩⟩

/-- A minimal raw trace satisfying every rule of §4.1. -/
def rawGood : RawData :=
  ⟨⟨[⟨1, ["visit A", "process A"], [], ["A"], [("A", none)], none⟩]⟩,
   ⟨["A"], [], "A"⟩⟩

/-! ### Bubble-sort visual encoder (src/components/BubbleSortVisualizer.tsx)

The bar fill / stroke / stroke-width attribute callbacks of lines 83-105. -/

/-- The `state` field of a bubble-sort step as the encoder reads it. -/
structure BubbleState where
  current_pass : Int
  current_comparison : Int
  swapped : Bool
  array : List Int
  comparing : Option (List Nat)
  sorted_count : Nat
deriving DecidableEq

/-- The bar fill encoder (lines 83-94): comparing bars get the swapped or
comparing colour, bars in the sorted suffix the sorted colour, and
everything else falls back to the unsorted colour. -/
def barFill (st : BubbleState) (index : Nat) : String :=
  if (st.comparing.getD []).contains index then
    if st.swapped then "var(--swapped-color)" else "var(--comparing-color)"
  else if st.array.length - st.sorted_count ≤ index then "var(--sorted-color)"
  else "var(--unsorted-color)"

/-- The bar stroke encoder (lines 95-101). -/
def barStroke (st : BubbleState) (index : Nat) : String :=
  if (st.comparing.getD []).contains index then "var(--ai-color)"
  else "var(--stroke-color)"

/-- The bar stroke-width encoder (lines 102-105). -/
def barStrokeWidth (st : BubbleState) (index : Nat) : Nat :=
  if (st.comparing.getD []).contains index then 4 else 2

/-! ### BFS node encoders (src/components/BFSGraphVisualizer.tsx lines 103-115) -/

/-- The `state` field of a BFS step as the node encoders read it. -/
structure BFSStepState where
  queue : List String
  visited : List String
deriving DecidableEq

/-- One BFS step (the fields the encoders use). -/
structure BFSStep where
  state : BFSStepState
  next_suggestion : Option String
deriving DecidableEq

/-- Node fill (lines 103-107): the visited colour exactly when the id is
in the current step's visited list. -/
def bfsNodeFill (step : BFSStep) (id : String) : String :=
  if step.state.visited.contains id then "var(--visited-color)" else "var(--node-color)"

/-- Node stroke (lines 108-112): the suggestion colour exactly when the id
equals the current step's next suggestion. -/
def bfsNodeStroke (step : BFSStep) (id : String) : String :=
  if step.next_suggestion == some id then "var(--ai-color)" else "var(--stroke-color)"

/-- Node stroke width (lines 113-115). -/
def bfsNodeStrokeWidth (step : BFSStep) (id : String) : Nat :=
  if step.next_suggestion == some id then 6 else 3

/-! ### The bundled BFS trace (src/data/bfsData.ts) -/

/-- One step of bfsData.ts. -/
structure BfsDataStep where
  step_number : Int
  actions : List String
  queue : List String
  visited : List String
  next_suggestion : Option String
deriving DecidableEq

/-- The `input` object of bfsData.ts. -/
structure BfsDataInput where
  nodes : List String
  edges : List (String × String)
  start_node : String
deriving DecidableEq

/-- The whole bfsData.ts export. -/
structure BfsData where
  name : String
  input : BfsDataInput
  steps : List BfsDataStep
deriving DecidableEq

/-- The literal `bfsData` export of src/data/bfsData.ts. -/
def bfsData : BfsData :=
  { name := "Breadth First Search (BFS)"
    input :=
      { nodes := ["A", "B", "C", "D", "E"]
        edges := [("A", "B"), ("A", "C"), ("B", "D"), ("C", "D"), ("D", "E")]
        start_node := "A" }
    steps :=
      [{ step_number := 1
         actions := ["Start at node A. Add neighbors B and C to the queue.",
                     "Begin BFS from A. Queue updated with B and C."]
         queue := ["B", "C"], visited := ["A"], next_suggestion := some "B" },
       { step_number := 2
         actions := ["Visit node B. Add neighbor D to the queue.",
                     "Node B processed. Queue now: C, D."]
         queue := ["C", "D"], visited := ["A", "B"], next_suggestion := some "C" },
       { step_number := 3
         actions := ["Visit node C. Neighbor D already in queue, skip.",
                     "Process C. Queue unchanged: D."]
         queue := ["D"], visited := ["A", "B", "C"], next_suggestion := some "D" },
       { step_number := 4
         actions := ["Visit node D. Add neighbor E to the queue.",
                     "Process D. Queue updated: E."]
         queue := ["E"], visited := ["A", "B", "C", "D"], next_suggestion := some "E" },
       { step_number := 5
         actions := ["Visit node E. Queue empty, BFS complete.",
                     "Process E. BFS finished."]
         queue := [], visited := ["A", "B", "C", "D", "E"], next_suggestion := none }] }

/-- Fallback step for indexed access in statements about `bfsData`. -/
def bfsDfltStep : BfsDataStep := ⟨0, [], [], [], none⟩

/-! ### Graph layout across step transitions

BFSGraphVisualizer.tsx runs its whole D3 effect (lines 52-198) with
dependency array `[stepIndex, explanationLevel, theme]`: every step
navigation clears the SVG and re-executes lines 69-73, which assign every
node the deterministic circle position
`(width/2 + 120 cos(2πi/n), height/2 + 120 sin(2πi/n))` with
`width = 600`, `height = 400`, before restarting the force simulation.
A drag handler (lines 140-143) moves a node to the pointer position.

LinkedListTraversal (src/unnamed/part_000 lines 409-448) and Prims.tsx
(lines 54, 79-92) instead keep a `positionsRef` object and a setup effect
with an empty dependency array that runs only once: a node reuses its
saved position and is assigned (and saved) an initial position only when
none is saved — the horizontal slot `(100 + 150 i, height/2)` with
`height = 400` for the linked list, the circle
`(width/2 + 140 cos(2πi/n), height/2 + 140 sin(2πi/n))` for Prim's —
and their step-change effects do not touch positions. -/

/-- The circle position assigned to node `i` of `n` by lines 69-73. -/
noncomputable def bfsCirclePos (i n : Nat) : Real × Real :=
  (600 / 2 + 120 * Real.cos (2 * Real.pi * i / n),
   400 / 2 + 120 * Real.sin (2 * Real.pi * i / n))

/-- The position table produced by one run of the layout effect: every
node id of the input is put on the circle, by its index. -/
noncomputable def bfsEffectPositions (ids : List String) : String → Option (Real × Real) :=
  fun id => (ids.findIdx? (fun x => x == id)).map (fun i => bfsCirclePos i ids.length)

/-- The view state of the BFS visualizer relevant to layout. -/
structure BFSView where
  stepIndex : Int
  positions : String → Option (Real × Real)

/-- Mounting the component: the effect runs once at step 0. -/
noncomputable def bfsMount (ids : List String) : BFSView :=
  ⟨0, bfsEffectPositions ids⟩

/-- A drag gesture on node `id` ending at pointer position `p`
(lines 140-148: `d.fx = event.x; d.fy = event.y`, released at end). -/
def bfsDrag (v : BFSView) (id : String) (p : Real × Real) : BFSView :=
  { v with positions := fun x => if x == id then some p else v.positions x }

/-- A Next-button step transition: the index advances (clamped) and the
effect re-runs, reassigning every position from the circle formula. -/
noncomputable def bfsStepTransition (ids : List String) (numSteps : Int) (v : BFSView) : BFSView :=
  { stepIndex := nextStepIndex numSteps v.stepIndex
    positions := bfsEffectPositions ids }

/-- The linked-list setup loop (part_000 lines 434-448) over the saved
`positionsRef` object: reuse a saved position, otherwise assign and save
the horizontal slot `(100 + 150 i, 400/2)`. -/
def llSetupPositions (ids : List String) (saved : Obj (Int × Int)) : Obj (Int × Int) :=
  (ids.enum).foldl (fun m q =>
    if (objGet m q.2).isSome then m
    else objSet m q.2 (100 + 150 * (q.1 : Int), 400 / 2)) saved

/-- The circle position assigned to node `i` of `n` by Prims.tsx lines
85-87 (radius 140, `width = 600`, `height = 400`). -/
noncomputable def primsCirclePos (i n : Nat) : Real × Real :=
  (600 / 2 + 140 * Real.cos (2 * Real.pi * i / n),
   400 / 2 + 140 * Real.sin (2 * Real.pi * i / n))

/-- The Prim's setup loop (Prims.tsx lines 79-92) over the saved
`positionsRef` object: the same reuse-or-assign-and-save structure as the
linked list's, with the circle formula as the initial position. -/
noncomputable def primsSetupPositions (ids : List String) (saved : Obj (Real × Real)) :
    Obj (Real × Real) :=
  (ids.enum).foldl (fun m q =>
    if (objGet m q.2).isSome then m
    else objSet m q.2 (primsCirclePos q.1 ids.length)) saved

/-! ## Helper lemmas -/

/-- `find?` returning `some` splits the list at the first hit, with the
predicate false on everything before it. -/
theorem find?_eq_some_split {α : Type} {l : List α} {f : α → Bool} {a : α}
    (h : l.find? f = some a) :
    ∃ l₁ l₂, l = l₁ ++ a :: l₂ ∧ ∀ b ∈ l₁, f b = false := by
  induction l with
  | nil => simp at h
  | cons x xs ih =>
    by_cases hx : f x
    · rw [List.find?_cons_of_pos _ hx] at h
      refine ⟨[], xs, ?_, by simp⟩
      have hxa : x = a := by simpa using h
      simp [hxa]
    · rw [List.find?_cons_of_neg _ (by simpa using hx)] at h
      obtain ⟨l₁, l₂, hl, hall⟩ := ih h
      refine ⟨x :: l₁, l₂, by simp [hl], ?_⟩
      intro b hb
      rcases List.mem_cons.mp hb with hb | hb
      · rw [hb]
        simpa using hx
      · exact hall b hb

/-- Two lists with the same members agree on `contains`. -/
theorem contains_eq_of_mem_iff {l₁ l₂ : List String}
    (h : ∀ x, x ∈ l₁ ↔ x ∈ l₂) (a : String) : l₁.contains a = l₂.contains a := by
  by_cases hm : a ∈ l₂
  · have h₁ : a ∈ l₁ := (h a).mpr hm
    have e₁ : l₁.contains a = true := by simpa using h₁
    have e₂ : l₂.contains a = true := by simpa using hm
    rw [e₁, e₂]
  · have h₁ : a ∉ l₁ := fun hx => hm ((h a).mp hx)
    have e₁ : l₁.contains a = false := by simpa using h₁
    have e₂ : l₂.contains a = false := by simpa using hm
    rw [e₁, e₂]

/-- A run of the Bellman-Ford effect never removes a settled node. -/
theorem bf_settled_mono (steps : List BFStep) (r : BFRefs) (k : Nat) {x : String}
    (h : x ∈ r.settledNodes) : x ∈ (bfRunEffect steps r k).settledNodes := by
  unfold bfRunEffect
  exact List.mem_append_left _ h

/-- Unfolding a three-seek run into successive effect runs. -/
theorem bfRunSeq_three (steps : List BFStep) (i j k : Nat) :
    bfRunSeq steps [i, j, k] =
      bfRunEffect steps (bfRunEffect steps (bfRunSeq steps [i]) j) k := by
  rfl

/-! ## Claim theorems -/

/-- C6: for every trace with `N` steps and every in-range index `i`,
the Next handler yields `min(i+1, N-1)` and the Prev handler yields
`max(i-1, 0)`; both results stay in `[0, N-1]`, and Next at the last step
and Prev at step 0 leave the index unchanged. -/
theorem stepIndex_clamping (N i : Int) (h0 : 0 ≤ i) (h1 : i ≤ N - 1) :
    (0 ≤ nextStepIndex N i ∧ nextStepIndex N i ≤ N - 1) ∧
    (0 ≤ prevStepIndex i ∧ prevStepIndex i ≤ N - 1) ∧
    nextStepIndex N (N - 1) = N - 1 ∧ prevStepIndex 0 = 0 := by
  unfold nextStepIndex prevStepIndex
  omega

/-- C6 witness: the clamping bounds at a five-step trace and index 2. -/
theorem stepIndex_clamping_witness :
    (0 ≤ nextStepIndex 5 2 ∧ nextStepIndex 5 2 ≤ 4) ∧
    (0 ≤ prevStepIndex 2 ∧ prevStepIndex 2 ≤ 4) ∧
    nextStepIndex 5 4 = 4 ∧ prevStepIndex 0 = 0 :=
  stepIndex_clamping 5 2 (by norm_num) (by norm_num)

/-- C8 counterexample: at a state holding an unexpected category
combination (`swapped = true` with no `comparing` list at all), the bar
fill encoder silently returns the default unsorted colour; it has no
failure outcome, contradicting the claim that unknown categories fail
with `UnstyledCategory`. -/
theorem barFill_silent_default_cex :
    barFill ⟨0, 0, true, [5, 3], none, 0⟩ 0 = "var(--unsorted-color)" := by
  decide

/-- C8 amended: the bubble-sort encoder is total over all category
combinations, defined and undefined alike, via a silent catch-all: every
state and index map to one of the four defined fill colours (with the
unsorted colour as the default fallback), one of the two stroke colours
and one of the two stroke widths; no `UnstyledCategory` failure exists. -/
theorem barFill_total_range (st : BubbleState) (index : Nat) :
    (barFill st index = "var(--swapped-color)" ∨
     barFill st index = "var(--comparing-color)" ∨
     barFill st index = "var(--sorted-color)" ∨
     barFill st index = "var(--unsorted-color)") ∧
    (barStroke st index = "var(--ai-color)" ∨ barStroke st index = "var(--stroke-color)") ∧
    (barStrokeWidth st index = 4 ∨ barStrokeWidth st index = 2) := by
  unfold barFill barStroke barStrokeWidth
  refine ⟨?_, ?_, ?_⟩ <;> split_ifs <;> simp

/-- C9: in the BFS node encoding, fill and stroke are independent
channels: the fill is a function of membership in the current step's
visited list alone, the stroke and stroke width are functions of equality
with the current step's next suggestion alone, and a node that is both
visited and the suggestion renders the visited fill together with the
suggestion outline. -/
theorem bfs_fill_stroke_independent :
    (∀ s₁ s₂ : BFSStep, ∀ id : String,
      s₁.state.visited.contains id = s₂.state.visited.contains id →
      bfsNodeFill s₁ id = bfsNodeFill s₂ id) ∧
    (∀ s₁ s₂ : BFSStep, ∀ id : String,
      (s₁.next_suggestion == some id) = (s₂.next_suggestion == some id) →
      bfsNodeStroke s₁ id = bfsNodeStroke s₂ id ∧
      bfsNodeStrokeWidth s₁ id = bfsNodeStrokeWidth s₂ id) ∧
    (∀ s : BFSStep, ∀ id : String, id ∈ s.state.visited → s.next_suggestion = some id →
      bfsNodeFill s id = "var(--visited-color)" ∧
      bfsNodeStroke s id = "var(--ai-color)" ∧
      bfsNodeStrokeWidth s id = 6) := by
  refine ⟨?_, ?_, ?_⟩
  · intro s₁ s₂ id h
    unfold bfsNodeFill
    rw [h]
  · intro s₁ s₂ id h
    unfold bfsNodeStroke bfsNodeStrokeWidth
    rw [h]
    exact ⟨rfl, rfl⟩
  · intro s id hm he
    have hc : s.state.visited.contains id = true := by simpa using hm
    unfold bfsNodeFill bfsNodeStroke bfsNodeStrokeWidth
    simp [hc, he, hm]

/-- C9 witness: a node that is visited and also the next suggestion gets
the visited fill and the suggestion stroke simultaneously. -/
theorem bfs_fill_stroke_independent_witness :
    bfsNodeFill ⟨⟨[], ["A"]⟩, some "A"⟩ "A" = "var(--visited-color)" ∧
    bfsNodeStroke ⟨⟨[], ["A"]⟩, some "A"⟩ "A" = "var(--ai-color)" ∧
    bfsNodeStrokeWidth ⟨⟨[], ["A"]⟩, some "A"⟩ "A" = 6 :=
  bfs_fill_stroke_independent.2.2 ⟨⟨[], ["A"]⟩, some "A"⟩ "A" (by decide) rfl

/-- C10: the bundled BFS trace is consistent: each step's visited list
extends the previous one by exactly one node appended at the end,
`step_number` is the 1-based position, every non-final step's suggestion
is the head of its queue, and the final step has an empty queue and no
suggestion. -/
theorem bfsData_consistent :
    (∀ i : Fin (bfsData.steps.length - 1),
      (bfsData.steps.getD (i.val + 1) bfsDfltStep).visited.dropLast =
        (bfsData.steps.getD i.val bfsDfltStep).visited ∧
      (bfsData.steps.getD (i.val + 1) bfsDfltStep).visited.length =
        (bfsData.steps.getD i.val bfsDfltStep).visited.length + 1) ∧
    (∀ i : Fin bfsData.steps.length,
      (bfsData.steps.getD i.val bfsDfltStep).step_number = (i.val : Int) + 1) ∧
    (∀ i : Fin (bfsData.steps.length - 1),
      (bfsData.steps.getD i.val bfsDfltStep).next_suggestion =
        (bfsData.steps.getD i.val bfsDfltStep).queue.head?) ∧
    ((bfsData.steps.getD (bfsData.steps.length - 1) bfsDfltStep).queue = [] ∧
     (bfsData.steps.getD (bfsData.steps.length - 1) bfsDfltStep).next_suggestion = none) := by
  decide

/-- C1 counterexample: on a cumulative trace whose step 1 changes the two
cells (A,B) and (B,A) simultaneously, the diff reports only the first
cell (A,B); the cell (B,A) differs between the steps but is not reported
and not highlighted, so the diff does not report the set of all differing
cells.  (At step 0 it does report nothing.) -/
theorem fw_diff_single_cell_cex :
    fwChangedCell fwIds fwTrace 1 = some ("A", "B") ∧
    objGet2 (parseDistances fwIds fwPrevD) "B" "A" ≠
      objGet2 (parseDistances fwIds fwCurrD) "B" "A" ∧
    fwHighlighted fwIds fwTrace 1 "B" "A" = false ∧
    fwChangedCell fwIds fwTrace 0 = none := by
  decide

/-- C1 amended: at step 0 the diff reports no cell; at a later step it
reports at most one cell — the first differing cell in the matrix
iteration order — or none when the parsed matrices agree everywhere: a
reported cell really differs and every cell enumerated before it agrees,
and a `none` report means no enumerated cell differs.  When several cells
differ simultaneously, only the first is reported, not all of them. -/
theorem fw_detectUpdatedCell_first_diff (ids : List String) (p0 c0 : DistObj) :
    detectUpdatedCell ids none c0 = none ∧
    (detectUpdatedCell ids (some p0) c0 = none →
      ∀ ij ∈ cellList (parseDistances ids p0),
        objGet2 (parseDistances ids p0) ij.1 ij.2 =
          objGet2 (parseDistances ids c0) ij.1 ij.2) ∧
    (∀ ij : String × String, detectUpdatedCell ids (some p0) c0 = some ij →
      objGet2 (parseDistances ids p0) ij.1 ij.2 ≠
        objGet2 (parseDistances ids c0) ij.1 ij.2 ∧
      ∃ before after, cellList (parseDistances ids p0) = before ++ ij :: after ∧
        ∀ ij2 ∈ before,
          objGet2 (parseDistances ids p0) ij2.1 ij2.2 =
            objGet2 (parseDistances ids c0) ij2.1 ij2.2) := by
  refine ⟨rfl, ?_, ?_⟩
  · intro h ij hij
    unfold detectUpdatedCell at h
    have hf := List.find?_eq_none.mp h ij hij
    have hb : (objGet2 (parseDistances ids p0) ij.1 ij.2 !=
        objGet2 (parseDistances ids c0) ij.1 ij.2) = false := by
      simpa using hf
    simpa using hb
  · intro ij h
    unfold detectUpdatedCell at h
    constructor
    · have hp := List.find?_some h
      exact bne_iff_ne.mp hp
    · obtain ⟨l₁, l₂, hl, hall⟩ := find?_eq_some_split h
      refine ⟨l₁, l₂, hl, ?_⟩
      intro ij2 hij2
      have hb := hall ij2 hij2
      simpa using hb

/-- C1 witness: the amended characterisation applied to the concrete
two-cell update: the reported cell (A,B) really differs between the two
parsed matrices. -/
theorem fw_detectUpdatedCell_first_diff_witness :
    objGet2 (parseDistances fwIds fwPrevD) "A" "B" ≠
      objGet2 (parseDistances fwIds fwCurrD) "A" "B" :=
  ((fw_detectUpdatedCell_first_diff fwIds fwPrevD fwCurrD).2.2
    ("A", "B") (by decide)).1

/-- C2 counterexample: on a concrete Bellman-Ford trace, seeking
1 → 2 → 1 renders node C with the visited fill at step 1, while a single
seek of 1 renders it unvisited — the same `(trace, stepIndex)` pair gives
two different style assignments, so the computation is not a pure
function of trace and step index. -/
theorem bf_seek_impure_cex :
    bfNodeFill "A" (bfRunSeq bfTrace [1, 2, 1]) "C" ≠
      bfNodeFill "A" (bfRunSeq bfTrace [1]) "C" ∧
    (bfRunSeq bfTrace [1, 2, 1]).prevStepIndex = (bfRunSeq bfTrace [1]).prevStepIndex := by
  decide

/-- C2 amended: the per-step category computation keeps hidden mutable
history: the settled-node set accumulated in refs only ever grows, so
after `seek(i); seek(j); seek(i)` every node settled by the single
`seek(i)` is still settled, and the node fills of the two runs coincide
exactly when the detour through `j` settled no additional node — in
general the revisited step shows every node settled at any previously
viewed step. -/
theorem bf_settled_accumulation (steps : List BFStep) (i j : Nat) :
    (∀ x : String, x ∈ (bfRunSeq steps [i]).settledNodes →
      x ∈ (bfRunSeq steps [i, j, i]).settledNodes) ∧
    ((∀ x : String, x ∈ (bfRunSeq steps [i, j, i]).settledNodes →
        x ∈ (bfRunSeq steps [i]).settledNodes) →
      ∀ startNode id : String,
        bfNodeFill startNode (bfRunSeq steps [i, j, i]) id =
          bfNodeFill startNode (bfRunSeq steps [i]) id) := by
  have hmono : ∀ x : String, x ∈ (bfRunSeq steps [i]).settledNodes →
      x ∈ (bfRunSeq steps [i, j, i]).settledNodes := by
    intro x hx
    rw [bfRunSeq_three]
    exact bf_settled_mono steps _ i (bf_settled_mono steps _ j hx)
  refine ⟨hmono, ?_⟩
  intro hsub startNode id
  unfold bfNodeFill
  have hiff : ∀ x : String, x ∈ (bfRunSeq steps [i, j, i]).settledNodes ↔
      x ∈ (bfRunSeq steps [i]).settledNodes :=
    fun x => ⟨hsub x, hmono x⟩
  rw [contains_eq_of_mem_iff hiff id]

/-- C2 witness: when the detour revisits the same step, the two runs
agree — the amended theorem applied to the concrete trace with i = j = 1. -/
theorem bf_settled_accumulation_witness :
    bfNodeFill "A" (bfRunSeq bfTrace [1, 1, 1]) "C" =
      bfNodeFill "A" (bfRunSeq bfTrace [1]) "C" :=
  (bf_settled_accumulation bfTrace 1 1).2
    (by
      intro x hx
      have h : (bfRunSeq bfTrace [1, 1, 1]).settledNodes =
          (bfRunSeq bfTrace [1]).settledNodes := by decide
      rw [h] at hx
      exact hx)
    "A" "C"

/-- C4 counterexample: a transition that changes only the theme issues a
narration call (the theme is in the effect's dependency array), instead
of the zero calls the claim states. -/
theorem narration_theme_cex :
    narrationCalls narrDemoSteps ⟨0, 0, false⟩ ⟨0, 0, true⟩ = [some "b0"] ∧
    narrationCalls narrDemoSteps ⟨0, 0, false⟩ ⟨0, 0, true⟩ ≠ [] := by
  decide

/-- C4 amended: every transition issues at most one narration call; a
transition that changes `stepIndex` or `explanationLevel` issues exactly
one, with the new state's `steps[stepIndex].actions[explanationLevel]`
text; and a transition that changes only the theme also issues exactly
one such call (re-speaking the current step's text), not zero. -/
theorem narration_on_transition (steps : List NarrStep) (s new : CtrlState) :
    (narrationCalls steps s new).length ≤ 1 ∧
    (new.stepIndex ≠ s.stepIndex ∨ new.explanationLevel ≠ s.explanationLevel →
      narrationCalls steps s new = [narrText steps new]) ∧
    narrationCalls steps s (toggleTheme s) = [narrText steps (toggleTheme s)] := by
  refine ⟨?_, ?_, ?_⟩
  · unfold narrationCalls
    split_ifs <;> simp
  · intro h
    have hcond : (s.stepIndex == new.stepIndex && s.explanationLevel == new.explanationLevel &&
        s.theme == new.theme) = false := by
      rcases h with h | h
      · have h1 : (s.stepIndex == new.stepIndex) = false :=
          beq_eq_false_iff_ne.mpr (fun he => h he.symm)
        simp [h1]
      · have h1 : (s.explanationLevel == new.explanationLevel) = false :=
          beq_eq_false_iff_ne.mpr (fun he => h he.symm)
        simp [h1]
    simp [narrationCalls, hcond]
  · have hcond : (s.theme == !s.theme) = false := by
      cases s.theme <;> rfl
    simp [narrationCalls, toggleTheme, hcond]

/-- C4 witness: a Next transition from step 0 to step 1 at beginner level
issues exactly the one call with the new step's beginner text. -/
theorem narration_on_transition_witness :
    narrationCalls narrDemoSteps ⟨0, 0, false⟩ ⟨1, 0, false⟩ =
      [narrText narrDemoSteps ⟨1, 0, false⟩] :=
  (narration_on_transition narrDemoSteps ⟨0, 0, false⟩ ⟨1, 0, false⟩).2.1
    (Or.inl (by decide))

/-- C7 counterexample: a raw trace with an empty `steps` array violates
the spec's schema rules, yet the load of BFSGraphVisualizer.tsx performs
no validation: it succeeds with an invalid trace (empty step list) and
the component proceeds to an undefined current step instead of refusing
with a `SchemaError`. -/
theorem load_no_validation_cex :
    specSchemaCheck rawEmptySteps = Except.error SchemaError.emptySteps ∧
    loadTrace rawEmptySteps = { steps := [], nodes := [⟨"A"⟩], edges := [] } ∧
    (loadTrace rawEmptySteps).steps.get? 0 = none :=
  ⟨rfl, rfl, rfl⟩

/-- C7 amended: the code's loader is a direct projection with no failure
path; on every raw trace that does satisfy the spec's schema rules it
agrees with the spec-modelled validating loader, while schema-violating
traces load anyway (see the counterexample) instead of failing. -/
theorem load_agrees_on_valid (raw : RawData) (t : LoadedTrace) :
    specSchemaCheck raw = Except.ok t → loadTrace raw = t := by
  unfold specSchemaCheck
  intro h
  split_ifs at h
  simp_all

/-- C7 witness: the agreement applied to a concrete schema-valid trace. -/
theorem load_agrees_on_valid_witness :
    loadTrace rawGood =
      { steps := [⟨1, ["visit A", "process A"], [], ["A"], [("A", none)], none⟩]
        nodes := [⟨"A"⟩]
        edges := [] } :=
  load_agrees_on_valid rawGood _ (by rfl)

/-- The inductive invariant of the narration event loop: at most one
utterance is unaccounted for (playing or cancelled-with-pending-callback),
and the `isSpeaking` flag is set exactly when one is. -/
theorem speech_inv {s : SpeechState} (h : SpeechReachable s) :
    s.active + s.cancelled ≤ 1 ∧ (s.isSpeaking = true ↔ s.active + s.cancelled = 1) := by
  induction h with
  | init => simp [speechInit]
  | @step s₀ s₁ e hr hstep ih =>
    obtain ⟨ih1, ih2⟩ := ih
    cases e with
    | callSpeak =>
      simp only [speechStep, Option.some.injEq] at hstep
      subst hstep
      refine ⟨by simp; omega, ?_⟩
      show s₀.isSpeaking = true ↔ 0 + (s₀.cancelled + s₀.active) = 1
      rw [ih2]
      omega
    | timeoutFire =>
      simp only [speechStep] at hstep
      split_ifs at hstep with hp hsp
      · obtain rfl := Option.some.inj hstep
        exact ⟨ih1, ih2⟩
      · obtain rfl := Option.some.inj hstep
        have hsp' : s₀.isSpeaking = false := by simpa using hsp
        have hzero : s₀.active + s₀.cancelled = 0 := by
          by_cases h1 : s₀.active + s₀.cancelled = 1
          · exfalso
            have := ih2.mpr h1
            rw [hsp'] at this
            exact Bool.false_ne_true this
          · omega
        refine ⟨by simp; omega, ?_⟩
        show true = true ↔ s₀.active + 1 + s₀.cancelled = 1
        simp
        omega
    | endActive =>
      simp only [speechStep] at hstep
      split_ifs at hstep with ha
      obtain rfl := Option.some.inj hstep
      have ha' : s₀.active ≠ 0 := ha
      refine ⟨by simp; omega, ?_⟩
      show false = true ↔ s₀.active - 1 + s₀.cancelled = 1
      simp
      omega
    | endCancelled =>
      simp only [speechStep] at hstep
      split_ifs at hstep with hc
      obtain rfl := Option.some.inj hstep
      have hc' : s₀.cancelled ≠ 0 := hc
      refine ⟨by simp; omega, ?_⟩
      show false = true ↔ s₀.active + (s₀.cancelled - 1) = 1
      simp
      omega

/-- C5: in every state reachable by any interleaving of `speak` calls,
timeout firings and end-callback deliveries, at most one utterance is
active; and the synchronous part of every new `speak` call cancels
whatever is still playing (zero utterances are active right after it). -/
theorem speech_at_most_one_active (s : SpeechState) (h : SpeechReachable s) :
    s.active ≤ 1 ∧
    ∀ s' : SpeechState, speechStep s SpeechEvent.callSpeak = some s' → s'.active = 0 := by
  constructor
  · have := (speech_inv h).1
    omega
  · intro s' hs
    simp only [speechStep, Option.some.injEq] at hs
    rw [← hs]

/-- C5 witness: the invariant applied to the concrete state reached by
one speak call whose timeout has fired (one utterance playing). -/
theorem speech_at_most_one_active_witness :
    (⟨true, 0, 1, 0⟩ : SpeechState).active ≤ 1 :=
  (speech_at_most_one_active ⟨true, 0, 1, 0⟩
    (@SpeechReachable.step ⟨false, 1, 0, 0⟩ ⟨true, 0, 1, 0⟩ SpeechEvent.timeoutFire
      (@SpeechReachable.step speechInit ⟨false, 1, 0, 0⟩ SpeechEvent.callSpeak
        SpeechReachable.init (by decide))
      (by decide))).1

/-- Writing a key absent from a JS object leaves every present key's
value unchanged. -/
theorem objGet_objSet_of_fresh {α : Type} {m : Obj α} {kNew : String} (v : α)
    (hfresh : objGet m kNew = none) (k : String) {x : α} (h : objGet m k = some x) :
    objGet (objSet m kNew v) k = some x := by
  have hfind : m.find? (fun p => p.1 == kNew) = none := by
    unfold objGet at hfresh
    cases hf : m.find? (fun p => p.1 == kNew) with
    | none => rfl
    | some p =>
      rw [hf] at hfresh
      simp at hfresh
  have hany : m.any (fun p => p.1 == kNew) = false := by
    rw [List.any_eq_false]
    intro p hp
    simpa using List.find?_eq_none.mp hfind p hp
  unfold objSet
  rw [if_neg (by simp [hany])]
  unfold objGet at h ⊢
  rw [List.find?_append]
  cases hm : m.find? (fun p => p.1 == k) with
  | none =>
    rw [hm] at h
    simp at h
  | some p =>
    rw [hm] at h
    simpa using h

/-- The shared reuse-or-assign-and-save setup-loop shape (the linked
list's and Prim's `positionsRef` initialisation differ only in the
initial-position formula `f`) never overwrites a saved value. -/
theorem setupLoop_preserves {α : Type} (f : Nat × String → α) (l : List (Nat × String))
    (m : Obj α) (id : String) (p : α) (h : objGet m id = some p) :
    objGet (l.foldl (fun m q =>
      if (objGet m q.2).isSome then m else objSet m q.2 (f q)) m) id = some p := by
  induction l generalizing m with
  | nil =>
    simpa using h
  | cons q l ih =>
    rw [List.foldl_cons]
    apply ih
    by_cases hq : (objGet m q.2).isSome
    · rw [if_pos hq]
      exact h
    · rw [if_neg hq]
      have hqn : objGet m q.2 = none := Option.not_isSome_iff_eq_none.mp hq
      exact objGet_objSet_of_fresh _ hqn id h

/-- C3 counterexample: after the user drags node A to (999, 999) and
releases, a single Next transition (during which no drag and no layout
reset happens, and A still exists) re-runs the layout effect and moves A
back onto the circle: its position is not preserved across the step
transition, so navigation does recompute positions. -/
theorem bfs_layout_reset_cex :
    (bfsDrag (bfsMount bfsData.input.nodes) "A" (999, 999)).positions "A" = some (999, 999) ∧
    (bfsStepTransition bfsData.input.nodes 5
        (bfsDrag (bfsMount bfsData.input.nodes) "A" (999, 999))).positions "A" ≠
      some (999, 999) := by
  constructor
  · simp [bfsDrag]
  · intro hEq
    have hidx : bfsData.input.nodes.findIdx? (fun x => x == "A") = some 0 := by rfl
    simp only [bfsStepTransition, bfsEffectPositions, hidx, Option.map_some',
      Option.some.injEq, bfsCirclePos, Prod.mk.injEq] at hEq
    have h1 := hEq.1
    rw [show ((0 : Nat) : ℝ) = 0 by norm_num] at h1
    norm_num [Real.cos_zero] at h1

/-- C3 amended: in the BFS visualizer, navigating between steps does
recompute node positions: after any step transition the position table is
exactly the deterministic circle layout, independent of any drag that
happened before (a dragged position is discarded); consequently positions
are stable across navigation only in the no-drag case, where the
recomputation reproduces the same values.  The visualizers that keep a
run-once `positionsRef` setup (the linked-list traversal and Prim's) do
preserve positions: their setup loops never overwrite a position already
saved in `positionsRef`, and their step-change effects do not touch
positions. -/
theorem bfs_layout_recompute (ids : List String) (numSteps : Int) (v : BFSView) :
    (bfsStepTransition ids numSteps v).positions = bfsEffectPositions ids ∧
    (∀ id : String, ∀ p q : Real × Real,
      (bfsStepTransition ids numSteps (bfsDrag v id p)).positions =
        (bfsStepTransition ids numSteps (bfsDrag v id q)).positions) ∧
    (v.positions = bfsEffectPositions ids →
      (bfsStepTransition ids numSteps v).positions = v.positions) ∧
    (∀ saved : Obj (Int × Int), ∀ id : String, ∀ p : Int × Int,
      objGet saved id = some p → objGet (llSetupPositions ids saved) id = some p) ∧
    (∀ saved : Obj (Real × Real), ∀ id : String, ∀ p : Real × Real,
      objGet saved id = some p → objGet (primsSetupPositions ids saved) id = some p) := by
  refine ⟨rfl, fun id p q => rfl, fun h => h.symm, ?_, ?_⟩
  · intro saved id p h
    exact setupLoop_preserves _ ids.enum saved id p h
  · intro saved id p h
    exact setupLoop_preserves _ ids.enum saved id p h

/-- C3 witness: the linked-list and Prim's persistence parts applied to a
concrete saved position each, and the no-drag stability of the circle
layout. -/
theorem bfs_layout_recompute_witness :
    objGet (llSetupPositions ["n1", "n2"] [("n1", (42, 7))]) "n1" = some (42, 7) ∧
    objGet (primsSetupPositions ["n1", "n2"] [("n1", (42, 7))]) "n1" = some (42, 7) ∧
    (bfsStepTransition ["n1", "n2"] 3 (bfsMount ["n1", "n2"])).positions =
      (bfsMount ["n1", "n2"]).positions :=
  ⟨(bfs_layout_recompute ["n1", "n2"] 3 (bfsMount ["n1", "n2"])).2.2.2.1
      [("n1", (42, 7))] "n1" (42, 7) rfl,
   (bfs_layout_recompute ["n1", "n2"] 3 (bfsMount ["n1", "n2"])).2.2.2.2
      [("n1", (42, 7))] "n1" (42, 7) rfl,
   (bfs_layout_recompute ["n1", "n2"] 3 (bfsMount ["n1", "n2"])).2.2.1 rfl⟩

end AlgoGraphiKa
